import Mathlib

/-!
Shallow embedding of the jamo_rust repository (src/hangul.rs): Hangul
syllable decomposition, romanization tables, and the pairwise phonological
rule engine.  Rust panics (out-of-bounds `Vec` indexing in `applied`,
missing-key `HashMap` indexing in `apply_rules`, `char::from_u32(..).unwrap()`)
are modelled as `Option.none`; every other operation is pure and total.
Rust `char` is Lean `Char`, Rust `String` is Lean `String`, and
`HashMap::from_iter` over an enumerated slice is modelled by a left fold in
which a later binding of the same key overwrites an earlier one, exactly as
repeated `insert` does.
-/

namespace JamoRust

def JAMO_OFFSET : Nat := 0xac00
def LEAD_OFFSET : Nat := 0x1100
def VOWEL_OFFSET : Nat := 0x1161
def TAIL_OFFSET : Nat := 0x11a7

/-- `LEAD_DICT` from src/hangul.rs (19 entries). -/
def LEAD_DICT : List String :=
  ["g", "kk", "n", "d", "tt", "r", "m", "b", "pp", "s",
   "ss", "", "j", "tch", "ch", "k", "t", "p", "h"]

/-- `VOWEL_DICT` from src/hangul.rs (21 entries). -/
def VOWEL_DICT : List String :=
  ["a", "ae", "ya", "yae", "eo", "e", "yeo", "ye", "o", "wa",
   "wae", "oe", "yo", "u", "weo", "we", "wi", "yu", "eu", "eui",
   "i"]

/-- `TAIL_DICT` from src/hangul.rs (28 entries, exactly as written in the
source, including the repeated "rb" at indices 11 and 14). -/
def TAIL_DICT : List String :=
  ["", "g", "gg", "gs", "n", "nj", "nh", "d", "r", "rg",
   "rm", "rb", "rs", "rt", "rb", "rh", "m", "b", "bs", "s",
   "ss", "ng", "j", "ch", "k", "t", "p", "h"]

/-- `reverse_dict`: the `HashMap` built by
`HashMap::from_iter(s.iter().enumerate().map(|(i, v)| (*v, i)))`, as a lookup
function.  Insertion proceeds left to right, so for a duplicated string the
later index overwrites the earlier one; a missing key yields `none`
(Rust's `map[key]` panics there). -/
def reverse_dict (s : List String) (key : String) : Option Nat :=
  s.enum.foldl (fun acc p => if p.2 = key then some p.1 else acc) none

inductive JamoPosition where
  | Lead
  | Vowel
  | Tail
deriving DecidableEq, Repr

/-- `Jamo`: a component code plus its slot (the Rust struct's first field is
literally named `usize`). -/
structure Jamo where
  usize : Nat
  position : JamoPosition
deriving DecidableEq, Repr

/-- `Jamo::roman`.  The Rust code indexes the fixed array directly; every
reachable code is in bounds (codes come from decomposition or from
`reverse_dict` lookups), so the unreachable out-of-bounds default is the
marker "??", a string that occurs in no table and no rule pattern. -/
def Jamo.roman (j : Jamo) : String :=
  match j.position with
  | JamoPosition.Lead => LEAD_DICT.getD j.usize "??"
  | JamoPosition.Vowel => VOWEL_DICT.getD j.usize "??"
  | JamoPosition.Tail => TAIL_DICT.getD j.usize "??"

/-- `Jamo::jamo_char_from_usize`: `char::from_u32((u + offset) as u32).unwrap()`;
`from_u32` is `none` exactly when the code point is no Unicode scalar value,
and `unwrap` of that `none` is a panic. -/
def jamo_char_from_usize (u offset : Nat) : Option Char :=
  if (u + offset).isValidChar then some (Char.ofNat (u + offset)) else none

/-- `Jamo::jamo_string`: tail code 0 renders as the empty string, every other
code as its standalone jamo character. -/
def Jamo.jamo_string (j : Jamo) : Option String :=
  match j.position with
  | JamoPosition.Lead => (jamo_char_from_usize j.usize LEAD_OFFSET).map Char.toString
  | JamoPosition.Vowel => (jamo_char_from_usize j.usize VOWEL_OFFSET).map Char.toString
  | JamoPosition.Tail =>
      if j.usize = 0 then some ""
      else (jamo_char_from_usize j.usize TAIL_OFFSET).map Char.toString

/-- `Hangul`: one decomposed syllable. -/
structure Hangul where
  lead : Jamo
  vowel : Jamo
  tail : Jamo
deriving DecidableEq, Repr

/-- `Hangul::new`: positional decomposition of a precomposed syllable.
The caller (`Letter::new`) guarantees `c` is at or above `JAMO_OFFSET`. -/
def Hangul.new (c : Char) : Hangul :=
  let rem := c.toNat - JAMO_OFFSET
  { lead := { usize := rem / 588, position := JamoPosition.Lead }
    vowel := { usize := rem % 588 / 28, position := JamoPosition.Vowel }
    tail := { usize := rem % 28, position := JamoPosition.Tail } }

/-- `Hangul::roman_string`: concatenation of the three romanizations. -/
def Hangul.roman_string (h : Hangul) : String :=
  h.lead.roman ++ h.vowel.roman ++ h.tail.roman

/-- `Hangul::jamo_string`: the bracketed three-part rendering. -/
def Hangul.jamo_string (h : Hangul) : Option String := do
  let l ← h.lead.jamo_string
  let v ← h.vowel.jamo_string
  let t ← h.tail.jamo_string
  pure ("[" ++ l ++ "][" ++ v ++ "][" ++ t ++ "]")

/-- `Hangul::hangul_string`: the three jamo renderings concatenated. -/
def Hangul.hangul_string (h : Hangul) : Option String := do
  let l ← h.lead.jamo_string
  let v ← h.vowel.jamo_string
  let t ← h.tail.jamo_string
  pure (l ++ v ++ t)

/-- `Letter`: a decoded Hangul syllable or a passthrough character. -/
inductive Letter where
  | HangulLetter (h : Hangul)
  | OtherLetter (c : Char)
deriving DecidableEq, Repr

/-- `Letter::new`: classify as Hangul exactly on `[0xac00, 0xd74a)`. -/
def Letter.new (c : Char) : Letter :=
  if JAMO_OFFSET ≤ c.toNat ∧ c.toNat < 0xd74a then
    Letter.HangulLetter (Hangul.new c)
  else
    Letter.OtherLetter c

/-- `Letter::roman`. -/
def Letter.roman (l : Letter) : String :=
  match l with
  | Letter.HangulLetter h => h.roman_string
  | Letter.OtherLetter c => c.toString

/-- `Letter::jamo`. -/
def Letter.jamo (l : Letter) : Option String :=
  match l with
  | Letter.HangulLetter h => h.jamo_string
  | Letter.OtherLetter c => some c.toString

/-- `Letter::hangul_string`. -/
def Letter.hangul_string (l : Letter) : Option String :=
  match l with
  | Letter.HangulLetter h => h.hangul_string
  | Letter.OtherLetter c => some c.toString

/-- `Letter::is_hangul`. -/
def Letter.is_hangul (l : Letter) : Bool :=
  match l with
  | Letter.HangulLetter _ => true
  | Letter.OtherLetter _ => false

/-- A phonological `Rule`: tail pattern, lead pattern ("*" is a wildcard),
and the rewrite strategy. -/
structure Rule where
  tail : String
  lead : String
  strategy : String → String → String × String

/-- `RULES` from src/hangul.rs, in source order. -/
def RULES : List Rule :=
  [ { tail := "h", lead := "", strategy := fun _ _ => ("", "") },
    { tail := "*", lead := "", strategy := fun t _ => ("", t) },
    { tail := "b", lead := "n", strategy := fun _ l => ("m", l) },
    { tail := "n", lead := "h", strategy := fun t _ => ("", t) },
    { tail := "bs", lead := "*",
      strategy := fun _ l => if l = "" then ("p", "s") else ("p", l) } ]

/-- The `JamoContext` a `KoreanSentence` carries is always
`reverse_dict` of the three constant tables, so its lookups are modelled by
these three functions. -/
def lead_rev_dict : String → Option Nat := reverse_dict LEAD_DICT

def vowel_rev_dict : String → Option Nat := reverse_dict VOWEL_DICT

def tail_rev_dict : String → Option Nat := reverse_dict TAIL_DICT

/-- `KoreanSentence::apply_rules`: walk the rule list once, in order, over
one adjacent pair.  A matching rule rewrites the left letter's tail and the
right letter's lead through the inverse tables and the walk continues with
the REST of the rule list on the rewritten pair; a missing key in an inverse
table is the Rust `HashMap` index panic, i.e. `none`. -/
def apply_rules (a b : Letter) : List Rule → Option (Letter × Letter)
  | [] => some (a, b)
  | r :: rs =>
    match a, b with
    | Letter.HangulLetter ha, Letter.HangulLetter hb =>
      let tail := ha.tail.roman
      let lead := hb.lead.roman
      if (r.tail = "*" || tail = r.tail) && (r.lead = "*" || lead = r.lead) then
        let p := r.strategy tail lead
        match tail_rev_dict p.1, lead_rev_dict p.2 with
        | some ti, some li =>
            apply_rules
              (Letter.HangulLetter
                { lead := ha.lead, vowel := ha.vowel
                  tail := { usize := ti, position := JamoPosition.Tail } })
              (Letter.HangulLetter
                { lead := { usize := li, position := JamoPosition.Lead }
                  vowel := hb.vowel, tail := hb.tail })
              rs
        | _, _ => none
      else apply_rules a b rs
    | _, _ => apply_rules a b rs

/-- `KoreanSentence::applied_vec`: the left-to-right sweep.  Each adjacent
pair runs through `apply_rules` once; the rewritten right letter becomes the
left letter of the next pair. -/
def applied_vec (a b : Letter) : List Letter → Option (List Letter)
  | [] => (apply_rules a b RULES).map (fun q => [q.1, q.2])
  | c :: rest =>
      (apply_rules a b RULES).bind fun q =>
        (applied_vec q.2 c rest).map (fun tl => q.1 :: tl)

/-- `KoreanSentence`: the letter sequence.  The shared `JamoContext` field is
the constant reverse dictionaries above, built identically by every
`KoreanSentence::new`, so it is kept out of the structure. -/
structure KoreanSentence where
  payload : List Letter
deriving DecidableEq, Repr

/-- `KoreanSentence::new`. -/
def KoreanSentence.new (s : String) : KoreanSentence :=
  { payload := s.data.map Letter.new }

/-- `KoreanSentence::roman`. -/
def KoreanSentence.roman (s : KoreanSentence) : String :=
  String.join (s.payload.map Letter.roman)

/-- Rendering every letter in order with a per-letter renderer, as the
source's `iter().map(..).collect::<Vec<String>>()` does; a letter whose
rendering panics (`none`) aborts the whole collection. -/
def renderAll (f : Letter → Option String) : List Letter → Option (List String)
  | [] => some []
  | l :: ls => (f l).bind fun str => (renderAll f ls).map fun strs => str :: strs

/-- `KoreanSentence::jamo`. -/
def KoreanSentence.jamo (s : KoreanSentence) : Option String :=
  (renderAll Letter.jamo s.payload).map String.join

/-- `KoreanSentence::hangul_string`. -/
def KoreanSentence.hangul_string (s : KoreanSentence) : Option String :=
  (renderAll Letter.hangul_string s.payload).map String.join

/-- `KoreanSentence::applied`: starts from `payload[0]` and `payload[1]`,
which is an out-of-bounds panic (`none`) when the sentence has fewer than
two letters. -/
def KoreanSentence.applied (s : KoreanSentence) : Option KoreanSentence :=
  match s.payload with
  | a :: b :: rest => (applied_vec a b rest).map (fun v => { payload := v })
  | _ => none

/-! ### Specification-side definitions

`specChain`, `specPairPass` and `specSweep` transcribe §4.3/§4.4 of the
specification (canonical behavior (a)): for one adjacent pair of decomposed
syllables, test each rule in fixed priority order against the EVOLVING pair,
apply every rule that matches, chain each applied rule's output into the
matching of the subsequent rules, and after a rule applies resume at the
next rule (never restart at rule 1); the sentence is swept once, left to
right, pair by pair, each pair processed at most once, the rewritten right
letter feeding the next pair.  The refinement theorem for C2 compares these
with `apply_rules` / `applied_vec`. -/

/-- One ordered pass of the rule list over the evolving pair of decomposed
syllables, per §4.3: a match rewrites the left tail and the right lead via
the inverse tables, and matching resumes at the next rule. -/
def specChain (a b : Hangul) : List Rule → Option (Hangul × Hangul)
  | [] => some (a, b)
  | r :: rs =>
      let t := a.tail.roman
      let l := b.lead.roman
      if (r.tail = "*" || t = r.tail) && (r.lead = "*" || l = r.lead) then
        match tail_rev_dict (r.strategy t l).1, lead_rev_dict (r.strategy t l).2 with
        | some ti, some li =>
            specChain
              { lead := a.lead, vowel := a.vowel
                tail := { usize := ti, position := JamoPosition.Tail } }
              { lead := { usize := li, position := JamoPosition.Lead }
                vowel := b.vowel, tail := b.tail }
              rs
        | _, _ => none
      else specChain a b rs

/-- One pair step of the sweep, per §4.3: rule matching is skipped entirely
unless both members are Hangul. -/
def specPairPass (a b : Letter) : Option (Letter × Letter) :=
  match a, b with
  | Letter.HangulLetter ha, Letter.HangulLetter hb =>
      (specChain ha hb RULES).map
        (fun q => (Letter.HangulLetter q.1, Letter.HangulLetter q.2))
  | _, _ => some (a, b)

/-- The single left-to-right sweep of §4.4: each adjacent pair is processed
exactly once, and the rewritten right letter is the left letter of the next
pair. -/
def specSweep (a b : Letter) : List Letter → Option (List Letter)
  | [] => (specPairPass a b).map (fun q => [q.1, q.2])
  | c :: rest =>
      (specPairPass a b).bind fun q =>
        (specSweep q.2 c rest).map (fun tl => q.1 :: tl)

/-! ### Observation functions used by the frame theorems -/

/-- The passthrough character carried by a letter, if it is one. -/
def Letter.passthrough : Letter → Option Char
  | Letter.OtherLetter c => some c
  | Letter.HangulLetter _ => none

/-- The vowel component code of a Hangul letter. -/
def Letter.vowelCode : Letter → Option Nat
  | Letter.HangulLetter h => some h.vowel.usize
  | Letter.OtherLetter _ => none

/-- The lead component code of a Hangul letter. -/
def Letter.leadCode : Letter → Option Nat
  | Letter.HangulLetter h => some h.lead.usize
  | Letter.OtherLetter _ => none

/-- The tail component code of a Hangul letter. -/
def Letter.tailCode : Letter → Option Nat
  | Letter.HangulLetter h => some h.tail.usize
  | Letter.OtherLetter _ => none

/-! ### Theorems

Unicode literals are written with explicit escapes because two visually
identical strings are in play: the precomposed syllables (e.g. `조` 조)
and the conjoining-jamo sequences that `hangul_string` actually emits
(e.g. `조` 조, which fonts render identically to 조). -/

/-- Claim C1, counterexample: on the input "좋아요." (`좋아요.`),
rendering the rule-applied sentence with `hangul_string` does NOT yield the
precomposed string "조아요." (`조아요.`) that the claim names:
`hangul_string` emits standalone conjoining jamo characters, never
precomposed syllables. -/
theorem c1_counterexample :
    ((KoreanSentence.new "좋아요.").applied.bind
      KoreanSentence.hangul_string) ≠ some "\uc870\uc544\uc694." := by
  decide

/-- Claim C1, amended: constructing a sentence from "좋아요."
(`좋아요.`), applying the rule pass, and rendering with
`hangul_string` yields exactly the conjoining-jamo sequence
`조아요.` (조아요.), the string the
repository's own doc-test expects, which fonts render identically to
"조아요.". -/
theorem c1_seed_scenario :
    ((KoreanSentence.new "좋아요.").applied.bind
      KoreanSentence.hangul_string)
      = some "\u110c\u1169\u110b\u1161\u110b\u116d." := by
  decide

/-- Claim C3: every character classified as a Hangul syllable decomposes to
lead = (c − 0xAC00) / 588, vowel = ((c − 0xAC00) % 588) / 28,
tail = (c − 0xAC00) % 28. -/
theorem c3_decomposition (c : Char) (h1 : 0xac00 ≤ c.toNat)
    (h2 : c.toNat < 0xd74a) :
    Letter.new c = Letter.HangulLetter
      { lead := { usize := (c.toNat - 0xac00) / 588, position := JamoPosition.Lead }
        vowel := { usize := (c.toNat - 0xac00) % 588 / 28, position := JamoPosition.Vowel }
        tail := { usize := (c.toNat - 0xac00) % 28, position := JamoPosition.Tail } } := by
  rw [Letter.new, if_pos ⟨h1, h2⟩]
  rfl

/-- Witness for C3 at the concrete character 좋 (`좋`, U+C88B = 51339):
its decomposition is lead 12, vowel 8, tail 27. -/
theorem c3_decomposition_witness :
    0xac00 ≤ '좋'.toNat ∧ '좋'.toNat < 0xd74a ∧
    Letter.new '좋' = Letter.HangulLetter
      { lead := { usize := ('좋'.toNat - 0xac00) / 588, position := JamoPosition.Lead }
        vowel := { usize := ('좋'.toNat - 0xac00) % 588 / 28, position := JamoPosition.Vowel }
        tail := { usize := ('좋'.toNat - 0xac00) % 28, position := JamoPosition.Tail } } :=
  ⟨by decide, by decide, c3_decomposition '좋' (by decide) (by decide)⟩

/-- Claim C4: a character is classified as a Hangul syllable letter iff its
code point lies in [0xAC00, 0xD74A); in particular every character in
[0xD74A, 0xD7A3] is classified as passthrough. -/
theorem c4_classification (c : Char) :
    ((Letter.new c).is_hangul = true ↔ 0xac00 ≤ c.toNat ∧ c.toNat < 0xd74a)
    ∧ (0xd74a ≤ c.toNat → c.toNat ≤ 0xd7a3 → Letter.new c = Letter.OtherLetter c) := by
  constructor
  · rw [Letter.new]
    split
    · rename_i h
      simpa [Letter.is_hangul] using h
    · rename_i h
      simpa [Letter.is_hangul] using h
  · intro hlo _
    rw [Letter.new, if_neg]
    intro h
    omega

/-- Witness for C4 at the concrete character U+D74A (`흊`), the first
valid precomposed syllable the classifier rejects. -/
theorem c4_classification_witness :
    0xd74a ≤ '흊'.toNat ∧ '흊'.toNat ≤ 0xd7a3 ∧
    Letter.new '흊' = Letter.OtherLetter '흊' ∧
    (Letter.new '흊').is_hangul = false :=
  ⟨by decide, by decide,
   (c4_classification '흊').2 (by decide) (by decide), by decide⟩

/-- Claim C5, failing-input evidence: the tail table is NOT a bijection.
`TAIL_DICT` lists "rb" at both code 11 and code 14 (code 14 should be the
romanization of ᆵ, a distinct jamo), so the forward table is not injective
and the derived inverse maps the string at code 11 back to 14, not 11.  The
lead and vowel tables, by contrast, are duplicate-free. -/
theorem c5_tail_table_not_bijective :
    TAIL_DICT.getD 11 "??" = "rb" ∧ TAIL_DICT.getD 14 "??" = "rb"
    ∧ tail_rev_dict (TAIL_DICT.getD 11 "??") = some 14
    ∧ tail_rev_dict (TAIL_DICT.getD 11 "??") ≠ some 11
    ∧ ¬ TAIL_DICT.Nodup ∧ LEAD_DICT.Nodup ∧ VOWEL_DICT.Nodup := by
  decide

/-- Claim C6, failing-input evidence: on the adjacent pair 앙 (`앙`,
tail "ng") and 아 (`아`, lead ""), rule 2 matches and its strategy
moves the tail string "ng" into the lead position, but "ng" is not a key of
the lead inverse table, so the lookup fails (the Rust `HashMap` index
panics) and the whole pass fails. -/
theorem c6_rule_output_lookup_fails :
    lead_rev_dict "ng" = none
    ∧ apply_rules (Letter.new '앙') (Letter.new '아') RULES = none
    ∧ (KoreanSentence.new "앙아").applied = none := by
  decide

/-- Claim C7, counterexample: on the input "않아" (`않아`, tail "nh"
meeting lead "" under rule 2), a rewrite strategy produces the string "nh",
absent from the lead inverse table; the pass then produces NO value at all —
the source panics on the missing `HashMap` key inside `applied`, whose
return type `Self` has no error channel — rather than stopping with a typed
error value. -/
theorem c7_counterexample :
    (KoreanSentence.new "않아").applied = none := by
  decide

/-- Claim C7, amended: when a rewrite strategy's output is absent from the
corresponding inverse table, the pass aborts as a whole — the failed pair
propagates and the sweep yields no partial output (the failure is an
unchecked panic, not a typed error). -/
theorem c7_failed_lookup_aborts_pass (a b : Letter) (rest : List Letter)
    (h : apply_rules a b RULES = none) :
    applied_vec a b rest = none := by
  cases rest <;> simp [applied_vec, h]

/-- Witness for C7 at the concrete failing pair 않 / 아 followed by a third
letter: the whole sweep aborts. -/
theorem c7_failed_lookup_aborts_pass_witness :
    apply_rules (Letter.new '않') (Letter.new '아') RULES = none
    ∧ applied_vec (Letter.new '않') (Letter.new '아')
        [Letter.new '요'] = none :=
  ⟨by decide,
   c7_failed_lookup_aborts_pass (Letter.new '않') (Letter.new '아')
     [Letter.new '요'] (by decide)⟩

/-- Claim C8, counterexample: Apply-Rules is not total over all input
strings — on the empty string and on the single-character string "아"
(`아`) the source indexes `payload[0]` / `payload[1]` out of bounds and
panics, so no result is returned. -/
theorem c8_counterexample :
    (KoreanSentence.new "").applied = none
    ∧ (KoreanSentence.new "아").applied = none := by
  decide

/-- Claim C10, counterexample: Apply-Rules does not return a new Sentence
for every input sentence — on the one-letter sentence built from "좋"
(`좋`) it panics (out-of-bounds `payload[1]`) and returns nothing. -/
theorem c10_counterexample :
    (KoreanSentence.new "좋").applied = none := by
  decide

/-- A pair with a non-Hangul member never triggers any rule: every rule in
the list is skipped and the pair is returned unchanged. -/
theorem apply_rules_skips_non_hangul {a b : Letter}
    (h : a.is_hangul = false ∨ b.is_hangul = false) :
    ∀ rules : List Rule, apply_rules a b rules = some (a, b) := by
  intro rules
  induction rules with
  | nil => rfl
  | cons r rs ih =>
    cases a with
    | HangulLetter ha =>
      cases b with
      | HangulLetter hb => simp [Letter.is_hangul] at h
      | OtherLetter c => simpa [apply_rules] using ih
    | OtherLetter c => simpa [apply_rules] using ih

/-- On a pair of Hangul letters, the source's rule walk is exactly the
specification's chain: every matching rule is applied to the evolving pair
and matching resumes at the next rule. -/
theorem apply_rules_eq_specChain (ha hb : Hangul) (rules : List Rule) :
    apply_rules (Letter.HangulLetter ha) (Letter.HangulLetter hb) rules
      = (specChain ha hb rules).map
          (fun q => (Letter.HangulLetter q.1, Letter.HangulLetter q.2)) := by
  induction rules generalizing ha hb with
  | nil => rfl
  | cons r rs ih =>
    cases hc : (r.tail = "*" || ha.tail.roman = r.tail)
        && (r.lead = "*" || hb.lead.roman = r.lead) with
    | false => simp [apply_rules, specChain, hc, ih]
    | true =>
      simp only [apply_rules, specChain, hc, if_true]
      cases h1 : tail_rev_dict (r.strategy ha.tail.roman hb.lead.roman).1 with
      | none => simp
      | some ti =>
        cases h2 : lead_rev_dict (r.strategy ha.tail.roman hb.lead.roman).2 with
        | none => simp
        | some li => simp [ih]

/-- One pair step of the sweep agrees with the specification's pair step. -/
theorem apply_rules_eq_specPairPass (a b : Letter) :
    apply_rules a b RULES = specPairPass a b := by
  cases a with
  | HangulLetter ha =>
    cases b with
    | HangulLetter hb => simpa [specPairPass] using apply_rules_eq_specChain ha hb RULES
    | OtherLetter c =>
      simpa [specPairPass] using
        apply_rules_skips_non_hangul (Or.inr (by simp [Letter.is_hangul])) RULES
  | OtherLetter c =>
    simpa [specPairPass] using
      apply_rules_skips_non_hangul (Or.inl (by simp [Letter.is_hangul])) RULES

/-- The sweep agrees with the specification's sweep. -/
theorem applied_vec_eq_specSweep (a b : Letter) (rest : List Letter) :
    applied_vec a b rest = specSweep a b rest := by
  induction rest generalizing a b with
  | nil => simp [applied_vec, specSweep, apply_rules_eq_specPairPass]
  | cons c rest ih => simp [applied_vec, specSweep, apply_rules_eq_specPairPass, ih]

/-- Frame facts for one pair: a successful rule walk preserves each letter's
passthrough character, its vowel code, the left letter's lead code and the
right letter's tail code. -/
theorem apply_rules_frame : ∀ {rules : List Rule} {a b c d : Letter},
    apply_rules a b rules = some (c, d) →
    c.passthrough = a.passthrough ∧ d.passthrough = b.passthrough
    ∧ c.vowelCode = a.vowelCode ∧ d.vowelCode = b.vowelCode
    ∧ c.leadCode = a.leadCode ∧ d.tailCode = b.tailCode := by
  intro rules
  induction rules with
  | nil =>
    intro a b c d h
    simp only [apply_rules, Option.some.injEq, Prod.mk.injEq] at h
    obtain ⟨rfl, rfl⟩ := h
    exact ⟨rfl, rfl, rfl, rfl, rfl, rfl⟩
  | cons r rs ih =>
    intro a b c d h
    cases a with
    | OtherLetter ch => exact ih (by simpa [apply_rules] using h)
    | HangulLetter ha =>
      cases b with
      | OtherLetter ch => exact ih (by simpa [apply_rules] using h)
      | HangulLetter hb =>
        by_cases hc : ((r.tail = "*" || ha.tail.roman = r.tail)
            && (r.lead = "*" || hb.lead.roman = r.lead)) = true
        · rw [apply_rules, if_pos hc] at h
          simp only [] at h
          cases h1 : tail_rev_dict (r.strategy ha.tail.roman hb.lead.roman).1 with
          | none => rw [h1] at h; cases h
          | some ti =>
            cases h2 : lead_rev_dict (r.strategy ha.tail.roman hb.lead.roman).2 with
            | none => rw [h1, h2] at h; cases h
            | some li =>
              rw [h1, h2] at h
              simp only [] at h
              have frame := ih h
              exact frame
        · rw [apply_rules, if_neg hc] at h
          exact ih h

/-- Frame facts for the whole sweep: a successful pass preserves the number
of letters, the lead code of the first letter, and, position by position,
every passthrough character and every vowel code. -/
theorem applied_vec_frame : ∀ {rest : List Letter} {a b : Letter} {out : List Letter},
    applied_vec a b rest = some out →
    out.length = rest.length + 2
    ∧ (out.get? 0).bind Letter.leadCode = a.leadCode
    ∧ ∀ i : Nat,
        (out.get? i).bind Letter.passthrough
          = ((a :: b :: rest).get? i).bind Letter.passthrough
        ∧ (out.get? i).bind Letter.vowelCode
          = ((a :: b :: rest).get? i).bind Letter.vowelCode := by
  intro rest
  induction rest with
  | nil =>
    intro a b out h
    cases hq : apply_rules a b RULES with
    | none => simp [applied_vec, hq] at h
    | some q =>
      obtain ⟨x, y⟩ := q
      simp [applied_vec, hq] at h
      subst h
      have frame := apply_rules_frame hq
      refine ⟨rfl, by simpa [List.get?] using frame.2.2.2.2.1, ?_⟩
      intro i
      match i with
      | 0 => simpa [List.get?] using ⟨frame.1, frame.2.2.1⟩
      | 1 => simpa [List.get?] using ⟨frame.2.1, frame.2.2.2.1⟩
      | (n + 2) => simp [List.get?]
  | cons c rest ih =>
    intro a b out h
    cases hq : apply_rules a b RULES with
    | none => simp [applied_vec, hq] at h
    | some q =>
      obtain ⟨x, y⟩ := q
      cases hv : applied_vec y c rest with
      | none => simp [applied_vec, hq, hv] at h
      | some tl =>
        simp [applied_vec, hq, hv] at h
        subst h
        have frame := apply_rules_frame hq
        have IH := ih hv
        refine ⟨by simpa [List.length] using IH.1, by simpa [List.get?] using frame.2.2.2.2.1, ?_⟩
        intro i
        match i with
        | 0 => simpa [List.get?] using ⟨frame.1, frame.2.2.1⟩
        | (j + 1) =>
          have hj := IH.2.2 j
          match j with
          | 0 =>
            simp only [List.get?] at hj ⊢
            refine ⟨hj.1.trans ?_, hj.2.trans ?_⟩
            · simpa using frame.2.1
            · simpa using frame.2.2.2.1
          | (k + 1) =>
            simpa [List.get?] using hj

/-- Claim C2: for every adjacent pair of Hangul letters the engine runs the
rule list once, in fixed priority order, applying every rule that matches
the evolving pair and resuming after each application at the next rule
(never restarting at rule 1); the sentence is swept left to right with each
adjacent pair processed exactly once, the rewritten right letter feeding the
next pair.  Formally, the source's `apply_rules` on a Hangul pair equals the
specification-side `specChain`, and the source's `applied_vec` equals the
specification-side single sweep `specSweep`. -/
theorem c2_chain_semantics :
    (∀ ha hb : Hangul,
      apply_rules (Letter.HangulLetter ha) (Letter.HangulLetter hb) RULES
        = (specChain ha hb RULES).map
            (fun q => (Letter.HangulLetter q.1, Letter.HangulLetter q.2)))
    ∧ ∀ (a b : Letter) (rest : List Letter),
        applied_vec a b rest = specSweep a b rest :=
  ⟨fun ha hb => apply_rules_eq_specChain ha hb RULES, applied_vec_eq_specSweep⟩

/-- Claim C9: a pair with a non-Hangul member never triggers any rule (the
pair passes through unchanged), and a passthrough letter anywhere in the
sentence is never altered by a successful rule pass. -/
theorem c9_passthrough_immune :
    (∀ (a b : Letter) (rules : List Rule),
        a.is_hangul = false ∨ b.is_hangul = false →
        apply_rules a b rules = some (a, b))
    ∧ ∀ (a b : Letter) (rest out : List Letter) (i : Nat) (ch : Char),
        applied_vec a b rest = some out →
        (a :: b :: rest).get? i = some (Letter.OtherLetter ch) →
        out.get? i = some (Letter.OtherLetter ch) := by
  constructor
  · intro a b rules h
    exact apply_rules_skips_non_hangul h rules
  · intro a b rest out i ch h hi
    have H := ((applied_vec_frame h).2.2 i).1
    rw [hi] at H
    cases ho : out.get? i with
    | none => rw [ho] at H; simp [Letter.passthrough] at H
    | some l =>
      rw [ho] at H
      cases l with
      | HangulLetter hh => simp [Letter.passthrough] at H
      | OtherLetter c2 =>
        simp only [Option.some_bind, Letter.passthrough, Option.some.injEq] at H
        simp [H]

/-- Witness for C9: the pair (".", 아) triggers no rule, and in the
sweep over 아 . 요 the passthrough "." at index 1 survives unchanged. -/
theorem c9_passthrough_immune_witness :
    apply_rules (Letter.new '.') (Letter.new '아') RULES
      = some (Letter.new '.', Letter.new '아')
    ∧ [Letter.new '아', Letter.new '.', Letter.new '요'].get? 1
        = some (Letter.OtherLetter '.') :=
  ⟨c9_passthrough_immune.1 (Letter.new '.') (Letter.new '아') RULES
      (Or.inl (by decide)),
   c9_passthrough_immune.2 (Letter.new '아') (Letter.new '.') [Letter.new '요']
      [Letter.new '아', Letter.new '.', Letter.new '요'] 1 '.'
      (by decide) (by decide)⟩

/-- Claim C10, amended: whenever the rule pass returns a sentence, it has
exactly as many letters as the input, every letter's vowel code and every
passthrough character is identical to the original (only tail and lead codes
change), and the first letter's lead code is untouched.  (The input sentence
itself is a value the pass never mutates: the model is pure, as the source
clones every letter it rewrites.) -/
theorem c10_frame_conditions (a b : Letter) (rest out : List Letter)
    (h : applied_vec a b rest = some out) :
    out.length = (a :: b :: rest).length
    ∧ (∀ i : Nat,
        (out.get? i).bind Letter.vowelCode
          = ((a :: b :: rest).get? i).bind Letter.vowelCode
        ∧ (out.get? i).bind Letter.passthrough
          = ((a :: b :: rest).get? i).bind Letter.passthrough)
    ∧ (out.get? 0).bind Letter.leadCode = a.leadCode := by
  have H := applied_vec_frame h
  exact ⟨by simp [H.1], fun i => ⟨(H.2.2 i).2, (H.2.2 i).1⟩, H.2.1⟩

/-- Witness for C10 on the seed sentence 좋아요.: the pass succeeds and
returns as many letters as it was given. -/
theorem c10_frame_conditions_witness :
    applied_vec (Letter.new '좋') (Letter.new '아')
        [Letter.new '요', Letter.new '.']
      = some [Letter.HangulLetter
                { lead := { usize := 12, position := JamoPosition.Lead }
                  vowel := { usize := 8, position := JamoPosition.Vowel }
                  tail := { usize := 0, position := JamoPosition.Tail } },
              Letter.new '아', Letter.new '요', Letter.new '.']
    ∧ [Letter.HangulLetter
                { lead := { usize := 12, position := JamoPosition.Lead }
                  vowel := { usize := 8, position := JamoPosition.Vowel }
                  tail := { usize := 0, position := JamoPosition.Tail } },
              Letter.new '아', Letter.new '요', Letter.new '.'].length
      = (Letter.new '좋' :: Letter.new '아'
          :: [Letter.new '요', Letter.new '.']).length :=
  ⟨by decide,
   (c10_frame_conditions (Letter.new '좋') (Letter.new '아')
      [Letter.new '요', Letter.new '.'] _ (by decide)).1⟩

/-- A code point below the surrogate range is a valid scalar value, so
`char::from_u32(..).unwrap()` succeeds on it. -/
theorem jamo_char_from_usize_eq_some (u off : Nat) (h : u + off < 0xd800) :
    ∃ ch, jamo_char_from_usize u off = some ch := by
  have hv : (u + off).isValidChar := Or.inl h
  exact ⟨Char.ofNat (u + off), by rw [jamo_char_from_usize, if_pos hv]⟩

/-- Every letter built by `Letter::new` renders under both `jamo` and
`hangul_string`: decomposition of an in-range syllable yields component
codes whose standalone jamo code points are all valid scalar values. -/
theorem letter_new_renders (c : Char) :
    ((Letter.new c).jamo).isSome ∧ ((Letter.new c).hangul_string).isSome := by
  by_cases hr : JAMO_OFFSET ≤ c.toNat ∧ c.toNat < 0xd74a
  · have h2 := hr.2
    obtain ⟨lc, hlc⟩ := jamo_char_from_usize_eq_some
      ((c.toNat - JAMO_OFFSET) / 588) LEAD_OFFSET
      (by unfold JAMO_OFFSET LEAD_OFFSET; omega)
    obtain ⟨vc, hvc⟩ := jamo_char_from_usize_eq_some
      ((c.toNat - JAMO_OFFSET) % 588 / 28) VOWEL_OFFSET
      (by unfold JAMO_OFFSET VOWEL_OFFSET; omega)
    by_cases ht : (c.toNat - JAMO_OFFSET) % 28 = 0
    · constructor <;>
        simp [Letter.new, hr, Letter.jamo, Letter.hangul_string,
          Hangul.jamo_string, Hangul.hangul_string, Hangul.new,
          Jamo.jamo_string, hlc, hvc, ht]
    · obtain ⟨tc, htc⟩ := jamo_char_from_usize_eq_some
        ((c.toNat - JAMO_OFFSET) % 28) TAIL_OFFSET
        (by unfold JAMO_OFFSET TAIL_OFFSET; omega)
      constructor <;>
        simp [Letter.new, hr, Letter.jamo, Letter.hangul_string,
          Hangul.jamo_string, Hangul.hangul_string, Hangul.new,
          Jamo.jamo_string, hlc, hvc, htc, ht]
  · constructor <;> simp [Letter.new, hr, Letter.jamo, Letter.hangul_string]

/-- Mapping a letter renderer that succeeds on constructed letters over a
constructed payload succeeds. -/
theorem renderAll_letters_isSome {f : Letter → Option String}
    (hf : ∀ c : Char, (f (Letter.new c)).isSome) :
    ∀ l : List Char, (renderAll f (l.map Letter.new)).isSome := by
  intro l
  induction l with
  | nil => exact rfl
  | cons c cs ih =>
    obtain ⟨v, hv⟩ := Option.isSome_iff_exists.mp (hf c)
    obtain ⟨vs, hvs⟩ := Option.isSome_iff_exists.mp ih
    simp [renderAll, hv, hvs]

/-- Claim C8, amended: construction and the three renderers are
deterministic and total — for every input string, including the empty and
single-character strings, `new` builds a sentence, `roman` returns a string
outright, and `jamo` and `hangul_string` return a rendering (no panic is
reachable); Apply-Rules, by contrast, is partial (see the counterexample). -/
theorem c8_renderers_total (s : String) :
    ((KoreanSentence.new s).jamo).isSome
    ∧ ((KoreanSentence.new s).hangul_string).isSome := by
  obtain ⟨v1, hv1⟩ := Option.isSome_iff_exists.mp
    (renderAll_letters_isSome (f := Letter.jamo)
      (fun c => (letter_new_renders c).1) s.data)
  obtain ⟨v2, hv2⟩ := Option.isSome_iff_exists.mp
    (renderAll_letters_isSome (f := Letter.hangul_string)
      (fun c => (letter_new_renders c).2) s.data)
  constructor <;>
    simp [KoreanSentence.new, KoreanSentence.jamo,
      KoreanSentence.hangul_string, hv1, hv2]

end JamoRust
